import Mathlib

/-!
Verification development for the BioNER fine-tuning notebook.

The notebook implements (a) a label-alignment routine
(lemmatize_tokenize_and_align_labels) that reconciles word-level BIO labels
with subword tokenization under a fixed length budget, (b) a confusion-matrix
metrics routine (evaluate_token_classification), and (c) a distributed training
loop (train_loop_per_worker) with rank-gated checkpointing plus a learning-rate
search (tune_learning_rate).

The external tokenizer and model are opaque collaborators: the tokenizer is a
parameter mapping a word to its subword ids, and the numeric training dynamics
(per-batch losses, accuracies) are parameters of the training-loop embedding.
Everything else is translated directly from the notebook code.
-/

namespace BioNER

/-- The dictionary label_to_int mapping B to 0, I to 1 and O to 2, from the
source. Subscripting a Python dict with a missing key raises KeyError, so the
map is partial: keys outside B, I, O return none. -/
def label_to_int (label : String) : Option Nat :=
  if label = "B" then some 0
  else if label = "I" then some 1
  else if label = "O" then some 2
  else none

/-- The external tokenizer service. The field tokenize combines the source
calls lemmatizer.lemmatize, tokenizer.tokenize and convert_tokens_to_ids for
one word: it returns the list of subword ids of that word, whose length equals
the number of subword tokens. The three special token ids are the ones the
source reads off the pretrained tokenizer. -/
structure Tokenizer where
  tokenize : String → List Nat
  cls_token_id : Nat
  sep_token_id : Nat
  pad_token_id : Nat

/-- One aligned example as produced by the source: the dict with keys
input_ids, attention_mask and labels. Labels are integers because the ignore
value -100 appears alongside the label ids 0, 1, 2. -/
structure AlignedExample where
  input_ids : List Nat
  attention_mask : List Nat
  labels : List Int
  deriving DecidableEq, Repr

/-- The inner for-loop of lemmatize_tokenize_and_align_labels over the zipped
(word, label) pairs, carrying the accumulators input_ids and aligned_labels.
A pair whose word tokenizes to zero subwords is skipped. Otherwise the word
ids are appended, the first label is looked up (KeyError when absent), then
the loop breaks early if the running id count exceeds max_length - 2, and
otherwise continuation labels are appended for a multi-subword word: I when
the original label is B, else the original label unchanged. -/
def alignLoop (tk : Tokenizer) (max_length : Nat) :
    List (String × String) → List Nat → List Nat →
      Except String (List Nat × List Nat)
  | [], input_ids, aligned_labels => .ok (input_ids, aligned_labels)
  | (word, label) :: rest, input_ids, aligned_labels =>
    let word_tokens := tk.tokenize word
    if word_tokens.isEmpty then
      alignLoop tk max_length rest input_ids aligned_labels
    else
      match label_to_int label with
      | none => .error ("KeyError: " ++ label)
      | some li =>
        let input_ids2 := input_ids ++ word_tokens
        let aligned2 := aligned_labels ++ [li]
        if max_length - 2 < input_ids2.length then
          .ok (input_ids2, aligned2)
        else if 1 < word_tokens.length then
          let remaining_label := if label = "B" then "I" else label
          match label_to_int remaining_label with
          | none => .error ("KeyError: " ++ remaining_label)
          | some ri =>
            alignLoop tk max_length rest input_ids2
              (aligned2 ++ List.replicate (word_tokens.length - 1) ri)
        else
          alignLoop tk max_length rest input_ids2 aligned2

/-- The per-sentence body of lemmatize_tokenize_and_align_labels: the length
precondition check, the alignment loop, the post-loop truncation to
max_length - 2, the CLS/SEP wrapping with ignore labels, the all-ones
attention mask over the wrapped ids, and right padding up to max_length.
The first component of a record is the label list, the second the word list,
mirroring the (label_str, sentence) order of the parsed records. -/
def alignSentence (tk : Tokenizer) (max_length : Nat)
    (label_list words : List String) : Except String AlignedExample :=
  if label_list.length ≠ words.length then
    .error ("Mismatch: " ++ toString label_list.length ++ " labels but " ++
      toString words.length ++ " words")
  else
    match alignLoop tk max_length (words.zip label_list) [] [] with
    | .error e => .error e
    | .ok (input_ids, aligned_labels) =>
      let truncated :=
        if max_length - 2 < input_ids.length then
          (input_ids.take (max_length - 2), aligned_labels.take (max_length - 2))
        else (input_ids, aligned_labels)
      let final_input_ids :=
        [tk.cls_token_id] ++ truncated.1 ++ [tk.sep_token_id]
      let final_labels : List Int :=
        [-100] ++ truncated.2.map Int.ofNat ++ [-100]
      let attention_mask := List.replicate final_input_ids.length 1
      let padding_length := max_length - final_input_ids.length
      .ok { input_ids := final_input_ids ++ List.replicate padding_length tk.pad_token_id,
            attention_mask := attention_mask ++ List.replicate padding_length 0,
            labels := final_labels ++ List.replicate padding_length (-100) }

/-- The batch level of lemmatize_tokenize_and_align_labels: every parsed
record of the batch is aligned in order. The source enumerates the records
but never uses the running index in the loop body or in the raised error. -/
def lemmatize_tokenize_and_align_labels (tk : Tokenizer) (max_length : Nat) :
    List (List String × List String) → Except String (List AlignedExample)
  | [] => .ok []
  | (label_list, words) :: rest =>
    match alignSentence tk max_length label_list words with
    | .error e => .error e
    | .ok ex =>
      match lemmatize_tokenize_and_align_labels tk max_length rest with
      | .error e => .error e
      | .ok exs => .ok (ex :: exs)

/-- Concatenation of the subword ids of all words of the zipped pairs, in
order: the raw subword stream the loop draws from. -/
def rawSubwordStream (tk : Tokenizer) (pairs : List (String × String)) : List Nat :=
  pairs.foldr (fun p r => tk.tokenize p.1 ++ r) []

/-- The continuation label of a word: I when the original label is B,
otherwise the original label unchanged. -/
def contLabelOf (label : String) : String :=
  if label = "B" then "I" else label

/-- The label ids the loop emits for one word with the given original label
and subword count: nothing for zero subwords, else the original label id
followed by the continuation label id on every further subword. -/
def wordEmission (label : String) : Nat → List Nat
  | 0 => []
  | k + 1 =>
    (label_to_int label).getD 0 ::
      List.replicate k ((label_to_int (contLabelOf label)).getD 0)

/-- Concatenation of the per-word label emissions over the zipped pairs. -/
def expectedLabels (tk : Tokenizer) (pairs : List (String × String)) : List Nat :=
  pairs.foldr (fun p r => wordEmission p.2 (tk.tokenize p.1).length ++ r) []

/-! Metrics: evaluate_token_classification derives accuracy and per-class
precision, recall and F1 from a 3 by 3 confusion matrix. The matrix itself is
filled from model predictions (opaque); the derivation below is the part
translated from the source. -/

/-- A 3 by 3 confusion matrix indexed by (true label, predicted label). -/
abbrev ConfusionMatrix := Fin 3 → Fin 3 → Nat

/-- The value total_samples = confusion.sum().item() of the source. -/
def totalSamples (c : ConfusionMatrix) : Nat := ∑ i, ∑ j, c i j

/-- The value correct_predictions = confusion.diag().sum().item() of the
source. -/
def correctPredictions (c : ConfusionMatrix) : Nat := ∑ i, c i i

/-- The accuracy of the source: correct_predictions / total_samples when
total_samples is positive, else 0. -/
def accuracy (c : ConfusionMatrix) : ℚ :=
  if 0 < totalSamples c then
    (correctPredictions c : ℚ) / (totalSamples c : ℚ)
  else 0

/-- The value true_positives = confusion[i, i] of the source. -/
def true_positives (c : ConfusionMatrix) (i : Fin 3) : Nat := c i i

/-- The value false_positives: the column sum of class i minus the diagonal
cell. -/
def false_positives (c : ConfusionMatrix) (i : Fin 3) : Nat :=
  (∑ j, c j i) - c i i

/-- The value false_negatives: the row sum of class i minus the diagonal
cell. -/
def false_negatives (c : ConfusionMatrix) (i : Fin 3) : Nat :=
  (∑ j, c i j) - c i i

/-- Per-class precision of the source: TP / (TP + FP) when the denominator is
positive, else 0. -/
def precision (c : ConfusionMatrix) (i : Fin 3) : ℚ :=
  if 0 < true_positives c i + false_positives c i then
    (true_positives c i : ℚ) / ((true_positives c i + false_positives c i : Nat) : ℚ)
  else 0

/-- Per-class recall of the source: TP / (TP + FN) when the denominator is
positive, else 0. -/
def recallScore (c : ConfusionMatrix) (i : Fin 3) : ℚ :=
  if 0 < true_positives c i + false_negatives c i then
    (true_positives c i : ℚ) / ((true_positives c i + false_negatives c i : Nat) : ℚ)
  else 0

/-- Per-class F1 of the source: the harmonic mean of precision and recall when
their sum is positive, else 0. -/
def f1 (c : ConfusionMatrix) (i : Fin 3) : ℚ :=
  if 0 < precision c i + recallScore c i then
    2 * precision c i * recallScore c i / (precision c i + recallScore c i)
  else 0

/-! Training loop: train_loop_per_worker. The numeric training dynamics are
opaque, so per-batch losses and per-epoch accuracies are parameters. A loss is
a value with a finiteness flag mirroring IEEE behavior: a sum is finite only
when both summands are. -/

/-- A scalar loss as produced by loss.item(): its value together with a flag
recording whether it is numerically finite. -/
structure LossValue where
  val : ℚ
  finiteVal : Bool
  deriving DecidableEq, Repr

/-- Accumulation epoch_loss += loss.item() of the source: values add, and the
sum is finite exactly when both operands are. -/
def addLoss (a b : LossValue) : LossValue :=
  { val := a.val + b.val, finiteVal := a.finiteVal && b.finiteVal }

/-- The zero the source initializes epoch_loss with. -/
def zeroLoss : LossValue := { val := 0, finiteVal := true }

/-- The value avg_loss = epoch_loss / len(train_dataloader) of the source,
computed from the losses of the batches of one epoch. -/
def epochAverageLoss (batch_losses : List LossValue) : LossValue :=
  let s := batch_losses.foldl addLoss zeroLoss
  { val := s.val / (batch_losses.length : ℚ), finiteVal := s.finiteVal }

/-- The record a worker passes to ray.train.report at the end of an epoch.
On the checkpoint branch the report carries loss, val_accuracy,
train_accuracy and a checkpoint; on the other branch it carries only the
loss. -/
structure WorkerReport where
  loss : LossValue
  val_accuracy : Option ℚ
  train_accuracy : Option ℚ
  checkpoint : Option Nat
  deriving DecidableEq, Repr

/-- The end-of-epoch reporting of train_loop_per_worker: a checkpoint
(keyed by the directory name epoch_(epoch + 1)) together with the full metric
record is produced exactly when the worker has world rank 0 and the epoch
matches the checkpoint cadence; every other combination reports only the
loss. -/
def epochEndReport (world_rank epoch checkpoint_freq : Nat)
    (avg_loss : LossValue) (train_accuracy val_accuracy : ℚ) : WorkerReport :=
  if world_rank = 0 ∧ epoch % checkpoint_freq = 0 then
    { loss := avg_loss, val_accuracy := some val_accuracy,
      train_accuracy := some train_accuracy, checkpoint := some (epoch + 1) }
  else
    { loss := avg_loss, val_accuracy := none,
      train_accuracy := none, checkpoint := none }

/-- The control flow of train_loop_per_worker: a missing dataset shard raises
the ValueError of the source; otherwise every epoch averages its batch losses
and emits its end-of-epoch report. There is no branch on the numeric value or
finiteness of any loss anywhere in the loop. -/
def train_loop_per_worker (world_rank checkpoint_freq : Nat)
    (train_shard val_shard : Option (List AlignedExample))
    (epoch_batch_losses : List (List LossValue))
    (train_accuracy val_accuracy : ℚ) : Except String (List WorkerReport) :=
  if train_shard.isNone ∨ val_shard.isNone then
    .error "Dataset shard is None. Ensure dataset is passed correctly to TorchTrainer."
  else
    .ok (epoch_batch_losses.enum.map fun e =>
      epochEndReport world_rank e.1 checkpoint_freq (epochAverageLoss e.2)
        train_accuracy val_accuracy)

/-! Parameter freezing. The notebook freezes the base encoder in a standalone
cell applied to the globally loaded evaluation model; train_loop_per_worker
then loads a fresh model with from_pretrained and never applies any freezing
before building its optimizer over the requires_grad parameters. A model is
represented by the requires_grad flag of each of its parameters, split into
the distilbert (base encoder) and classifier (head) parameter lists. -/

/-- A token-classification model as a bundle of per-parameter requires_grad
flags: the base-encoder parameters and the classification-head parameters. -/
structure TCModel where
  distilbert : List Bool
  classifier : List Bool
  deriving DecidableEq, Repr

/-- AutoModelForTokenClassification.from_pretrained: a freshly loaded torch
module, all of whose parameters have requires_grad set to true (the torch
default for newly created parameters). -/
def from_pretrained (num_encoder_params num_head_params : Nat) : TCModel :=
  { distilbert := List.replicate num_encoder_params true,
    classifier := List.replicate num_head_params true }

/-- The standalone freeze cell of the notebook: requires_grad is set to false
on every model.distilbert parameter and to true on every model.classifier
parameter. -/
def freeze_cell (m : TCModel) : TCModel :=
  { distilbert := m.distilbert.map (fun _ => false),
    classifier := m.classifier.map (fun _ => true) }

/-- The iteration order of model.parameters(): base encoder first, then the
head. -/
def model_parameters (m : TCModel) : List Bool :=
  m.distilbert ++ m.classifier

/-- The model constructed inside train_loop_per_worker: loaded fresh with
from_pretrained, with no freezing applied in the loop. -/
def train_loop_model (num_encoder_params num_head_params : Nat) : TCModel :=
  from_pretrained num_encoder_params num_head_params

/-- The parameter selection handed to AdamW in the loop: the requires_grad
parameters of the model, in iteration order. -/
def optimizer_parameter_list (m : TCModel) : List Bool :=
  (model_parameters m).filter id

/-! Hyperparameter search: tune_learning_rate runs trials and then calls
results.get_best_result with metric val_accuracy and mode max. -/

/-- The outcome record of one tuning trial: its sampled learning rate, the
per-epoch reports its training loop emitted, and the val_accuracy metric the
selection reads. -/
structure TrialResult where
  learning_rate : ℚ
  reports : List WorkerReport
  val_accuracy : ℚ
  deriving DecidableEq, Repr

/-- Selection among completed trials as invoked by the source:
results.get_best_result(metric = val_accuracy, mode = max) returns a trial
maximizing val_accuracy. The body of get_best_result is Ray library code
outside this repository; this definition captures the documented contract of
the call as configured in tune_learning_rate. It inspects only val_accuracy:
nothing filters trials by the finiteness of their reported losses. -/
def get_best_result : List TrialResult → Option TrialResult
  | [] => none
  | t :: ts =>
    some (ts.foldl (fun best r =>
      if best.val_accuracy < r.val_accuracy then r else best) t)

/-! Concrete instances used by witnesses and counterexamples. -/

/-- A tokenizer splitting every word into 515 subwords with id 7, used to
exhibit the truncation behavior at the source value max_length = 512. -/
def wideTok : Tokenizer :=
  { tokenize := fun _ => List.replicate 515 7,
    cls_token_id := 101, sep_token_id := 102, pad_token_id := 0 }

/-- A tokenizer mapping every word to zero subwords. -/
def zeroTok : Tokenizer :=
  { tokenize := fun _ => [],
    cls_token_id := 101, sep_token_id := 102, pad_token_id := 0 }

/-- A tokenizer mapping every word to the single subword id 5. -/
def oneTok : Tokenizer :=
  { tokenize := fun _ => [5],
    cls_token_id := 101, sep_token_id := 102, pad_token_id := 0 }

/-- The tokenizer of end-to-end scenario 1 of the spec: cats splits into two
subwords, run into one. -/
def scenarioTok : Tokenizer :=
  { tokenize := fun w =>
      if w = "cats" then [11, 12] else if w = "run" then [13] else [],
    cls_token_id := 101, sep_token_id := 102, pad_token_id := 0 }

/-- A tokenizer splitting every word into ten subwords, used with a small
max_length to exhibit mid-word truncation. -/
def truncTok : Tokenizer :=
  { tokenize := fun _ => [1, 2, 3, 4, 5, 6, 7, 8, 9, 10],
    cls_token_id := 101, sep_token_id := 102, pad_token_id := 0 }

/-- The confusion matrix of end-to-end scenario 3 of the spec: diagonal
10, 5, 20 and total 40. -/
def exampleConfusion : ConfusionMatrix :=
  ![![10, 2, 1], ![0, 5, 1], ![1, 0, 20]]

/-- A finite unit loss. -/
def okLoss : LossValue := { val := 1, finiteVal := true }

/-- A numerically non-finite loss value. -/
def nanLoss : LossValue := { val := 0, finiteVal := false }

/-- A trial with finite losses at every epoch and val_accuracy one half. -/
def trialA : TrialResult :=
  { learning_rate := 3 / 100000,
    reports := [epochEndReport 0 0 1 (epochAverageLoss [okLoss]) (1/2) (1/2),
                epochEndReport 0 1 1 (epochAverageLoss [okLoss]) (1/2) (1/2)],
    val_accuracy := 1/2 }

/-- A trial whose loss is non-finite at its second epoch and whose
val_accuracy nine tenths is the best of all trials. -/
def trialB : TrialResult :=
  { learning_rate := 1 / 1000,
    reports := [epochEndReport 0 0 1 (epochAverageLoss [okLoss]) (9/10) (9/10),
                epochEndReport 0 1 1 (epochAverageLoss [nanLoss]) (9/10) (9/10)],
    val_accuracy := 9/10 }

/-! Helper lemmas about the label map and the alignment loop. -/

/-- A label among B, I, O is in the domain of label_to_int. -/
theorem label_to_int_of_mem (label : String)
    (h : label ∈ (["B", "I", "O"] : List String)) :
    label_to_int label = some ((label_to_int label).getD 0) := by
  simp only [List.mem_cons, List.not_mem_nil, or_false] at h
  rcases h with h | h | h <;> subst h <;> rfl

/-- The continuation label of a label among B, I, O is again among B, I, O. -/
theorem contLabelOf_mem (label : String)
    (h : label ∈ (["B", "I", "O"] : List String)) :
    contLabelOf label ∈ (["B", "I", "O"] : List String) := by
  simp only [List.mem_cons, List.not_mem_nil, or_false] at h
  rcases h with h | h | h <;> subst h <;> decide

/-- Every id label_to_int can return is 0, 1 or 2. -/
theorem label_to_int_range (label : String) (v : Nat)
    (h : label_to_int label = some v) : v = 0 ∨ v = 1 ∨ v = 2 := by
  unfold label_to_int at h
  split_ifs at h <;> simp_all

/-- When a label is in the domain of label_to_int, so is its continuation
label. -/
theorem contLabelOf_some_of_some (label : String) (v : Nat)
    (h : label_to_int label = some v) :
    ∃ r, label_to_int (contLabelOf label) = some r := by
  by_cases hb : label = "B"
  · refine ⟨1, ?_⟩
    rw [show contLabelOf label = "I" from by simp [contLabelOf, hb]]
    decide
  · exact ⟨v, by rw [show contLabelOf label = label from by simp [contLabelOf, hb]]; exact h⟩

/-- A label outside B, I, O is outside the domain of label_to_int. -/
theorem label_to_int_eq_none (label : String)
    (h : label ∉ (["B", "I", "O"] : List String)) : label_to_int label = none := by
  simp only [List.mem_cons, List.not_mem_nil, or_false, not_or] at h
  unfold label_to_int
  rw [if_neg h.1, if_neg h.2.1, if_neg h.2.2]

/-- When every label is valid and the whole raw subword stream fits in the
budget max_length - 2, the loop never breaks and returns the full stream
together with the concatenated per-word label emissions. -/
theorem alignLoop_eq_of_fits (tk : Tokenizer) (m : Nat) :
    ∀ (pairs : List (String × String)) (acc labs : List Nat),
      (∀ p ∈ pairs, p.2 ∈ (["B", "I", "O"] : List String)) →
      acc.length + (rawSubwordStream tk pairs).length ≤ m - 2 →
      alignLoop tk m pairs acc labs =
        .ok (acc ++ rawSubwordStream tk pairs, labs ++ expectedLabels tk pairs) := by
  intro pairs
  induction pairs with
  | nil =>
    intro acc labs _ _
    simp [alignLoop, rawSubwordStream, expectedLabels]
  | cons p rest ih =>
    obtain ⟨word, label⟩ := p
    intro acc labs hvalid hfit
    have hstream : rawSubwordStream tk ((word, label) :: rest) =
        tk.tokenize word ++ rawSubwordStream tk rest := rfl
    have hexp : expectedLabels tk ((word, label) :: rest) =
        wordEmission label (tk.tokenize word).length ++ expectedLabels tk rest := rfl
    have hlab : label ∈ (["B", "I", "O"] : List String) :=
      hvalid (word, label) (List.mem_cons_self _ _)
    have hrest : ∀ p ∈ rest, p.2 ∈ (["B", "I", "O"] : List String) :=
      fun p hp => hvalid p (List.mem_cons_of_mem _ hp)
    rw [hstream] at hfit
    by_cases h0 : tk.tokenize word = []
    · rw [hstream, hexp, h0]
      simp only [List.length_nil, wordEmission, List.nil_append]
      rw [show alignLoop tk m ((word, label) :: rest) acc labs =
            alignLoop tk m rest acc labs by
          simp [alignLoop, h0]]
      exact ih acc labs hrest (by simpa [h0] using hfit)
    · obtain ⟨li, hli⟩ : ∃ li, label_to_int label = some li :=
        ⟨_, label_to_int_of_mem label hlab⟩
      have hligetD : (label_to_int label).getD 0 = li := by rw [hli]; rfl
      obtain ⟨ri, hri⟩ : ∃ ri, label_to_int (contLabelOf label) = some ri :=
        ⟨_, label_to_int_of_mem (contLabelOf label) (contLabelOf_mem label hlab)⟩
      have hrigetD : (label_to_int (contLabelOf label)).getD 0 = ri := by rw [hri]; rfl
      have hfit2 : (acc ++ tk.tokenize word).length ≤ m - 2 := by
        simp only [List.length_append] at hfit ⊢
        omega
      have hnb : ¬ (m - 2 < (acc ++ tk.tokenize word).length) := not_lt.mpr hfit2
      obtain ⟨t, ts, hts⟩ : ∃ t ts, tk.tokenize word = t :: ts := by
        cases h : tk.tokenize word with
        | nil => exact absurd h h0
        | cons t ts => exact ⟨t, ts, rfl⟩
      have hfit3 : (acc ++ tk.tokenize word).length + (rawSubwordStream tk rest).length ≤ m - 2 := by
        simp only [List.length_append] at hfit ⊢
        omega
      rw [hstream, hexp]
      cases ts with
      | nil =>
        have hstep : alignLoop tk m ((word, label) :: rest) acc labs =
            alignLoop tk m rest (acc ++ tk.tokenize word) (labs ++ [li]) := by
          simp only [alignLoop, hts]
          simp only [hli]
          simp only [hts] at hnb
          simp only [List.length_append, List.length_cons, List.length_nil] at hnb
          simp [hnb]
        rw [hstep, ih _ _ hrest (by simpa using hfit3), hts]
        simp [wordEmission, hligetD]
      | cons t2 ts2 =>
        have hstep : alignLoop tk m ((word, label) :: rest) acc labs =
            alignLoop tk m rest (acc ++ tk.tokenize word)
              ((labs ++ [li]) ++ List.replicate ((tk.tokenize word).length - 1) ri) := by
          simp only [alignLoop, hts]
          simp only [hli]
          simp only [hts] at hnb
          simp only [List.length_append, List.length_cons] at hnb
          have hc : ¬ (m - 2 < acc.length + (ts2.length + 1 + 1)) := by omega
          have h1 : (1 : Nat) < ts2.length + 1 + 1 := by omega
          simp only [List.length_append, List.length_cons, hc, if_false, h1, if_true]
          rw [show (if label = "B" then "I" else label) = contLabelOf label from rfl]
          simp only [hri]
          simp [hts]
        rw [hstep, ih _ _ hrest (by simpa using hfit3), hts]
        simp [wordEmission, hligetD, hrigetD, List.replicate_succ]

/-- With valid labels the loop never errors: it returns a prefix of the raw
subword stream as ids (everything when no break occurs, otherwise a prefix
already longer than the budget), and every emitted label id is 0, 1 or 2. -/
theorem alignLoop_ok_of_valid (tk : Tokenizer) (m : Nat) :
    ∀ (pairs : List (String × String)) (acc labs : List Nat),
      (∀ p ∈ pairs, p.2 ∈ (["B", "I", "O"] : List String)) →
      ∃ n out, alignLoop tk m pairs acc labs =
          .ok (acc ++ (rawSubwordStream tk pairs).take n, labs ++ out) ∧
        ((rawSubwordStream tk pairs).length ≤ n ∨
          m - 2 < acc.length + ((rawSubwordStream tk pairs).take n).length) ∧
        (∀ x ∈ out, x = 0 ∨ x = 1 ∨ x = 2) := by
  intro pairs
  induction pairs with
  | nil =>
    intro acc labs _
    exact ⟨0, [], by simp [alignLoop, rawSubwordStream], by simp [rawSubwordStream], by simp⟩
  | cons p rest ih =>
    obtain ⟨word, label⟩ := p
    intro acc labs hvalid
    have hlab : label ∈ (["B", "I", "O"] : List String) :=
      hvalid (word, label) (List.mem_cons_self _ _)
    have hrest : ∀ p ∈ rest, p.2 ∈ (["B", "I", "O"] : List String) :=
      fun p hp => hvalid p (List.mem_cons_of_mem _ hp)
    have hstream : rawSubwordStream tk ((word, label) :: rest) =
        tk.tokenize word ++ rawSubwordStream tk rest := rfl
    by_cases h0 : tk.tokenize word = []
    · obtain ⟨n, out, heq, hcond, hmem⟩ := ih acc labs hrest
      refine ⟨n, out, ?_, ?_, hmem⟩
      · rw [show alignLoop tk m ((word, label) :: rest) acc labs =
              alignLoop tk m rest acc labs by simp [alignLoop, h0]]
        rw [heq, hstream, h0]
        simp
      · rw [hstream, h0]
        simpa using hcond
    · obtain ⟨li, hli⟩ : ∃ li, label_to_int label = some li :=
        ⟨_, label_to_int_of_mem label hlab⟩
      have hlir := label_to_int_range label li hli
      obtain ⟨ri, hri⟩ := contLabelOf_some_of_some label li hli
      have hrir := label_to_int_range (contLabelOf label) ri hri
      obtain ⟨t, ts, hts⟩ : ∃ t ts, tk.tokenize word = t :: ts := by
        cases h : tk.tokenize word with
        | nil => exact absurd h h0
        | cons t ts => exact ⟨t, ts, rfl⟩
      by_cases hbrk : m - 2 < (acc ++ tk.tokenize word).length
      · refine ⟨(tk.tokenize word).length, [li], ?_, ?_, ?_⟩
        · rw [show alignLoop tk m ((word, label) :: rest) acc labs =
                .ok (acc ++ tk.tokenize word, labs ++ [li]) by
              simp only [alignLoop, hts]
              simp only [hli]
              simp only [hts] at hbrk
              simp only [List.length_append, List.length_cons] at hbrk
              simp [hbrk]]
          rw [hstream]
          rw [List.take_left]
        · right
          rw [hstream, List.take_left]
          simpa [List.length_append] using hbrk
        · intro x hx
          simp only [List.mem_singleton] at hx
          subst hx
          exact hlir
      · cases ts with
        | nil =>
          obtain ⟨n, out, heq, hcond, hmem⟩ := ih (acc ++ tk.tokenize word) (labs ++ [li]) hrest
          refine ⟨(tk.tokenize word).length + n, [li] ++ out, ?_, ?_, ?_⟩
          · rw [show alignLoop tk m ((word, label) :: rest) acc labs =
                  alignLoop tk m rest (acc ++ tk.tokenize word) (labs ++ [li]) by
                simp only [alignLoop, hts]
                simp only [hli]
                simp only [hts] at hbrk
                simp only [List.length_append, List.length_cons, List.length_nil] at hbrk
                simp [hbrk]]
            rw [heq, hstream, List.take_append]
            simp
          · rw [hstream]
            rcases hcond with hc | hc
            · left
              simp only [List.length_append]
              omega
            · right
              rw [List.take_append]
              simp only [List.length_append, List.length_take] at hc ⊢
              omega
          · intro x hx
            rcases List.mem_append.mp hx with hx | hx
            · simp only [List.mem_singleton] at hx
              subst hx
              exact hlir
            · exact hmem x hx
        | cons t2 ts2 =>
          obtain ⟨n, out, heq, hcond, hmem⟩ := ih (acc ++ tk.tokenize word)
            ((labs ++ [li]) ++ List.replicate ((tk.tokenize word).length - 1) ri) hrest
          refine ⟨(tk.tokenize word).length + n,
            ([li] ++ List.replicate ((tk.tokenize word).length - 1) ri) ++ out, ?_, ?_, ?_⟩
          · rw [show alignLoop tk m ((word, label) :: rest) acc labs =
                  alignLoop tk m rest (acc ++ tk.tokenize word)
                    ((labs ++ [li]) ++ List.replicate ((tk.tokenize word).length - 1) ri) by
                simp only [alignLoop, hts]
                simp only [hli]
                simp only [hts] at hbrk
                simp only [List.length_append, List.length_cons] at hbrk
                have hc : ¬ (m - 2 < acc.length + (ts2.length + 1 + 1)) := by omega
                have h1 : (1 : Nat) < ts2.length + 1 + 1 := by omega
                simp only [List.length_append, List.length_cons, hc, if_false, h1, if_true]
                rw [show (if label = "B" then "I" else label) = contLabelOf label from rfl]
                simp only [hri]
                simp [hts]]
            rw [heq, hstream, List.take_append]
            simp
          · rw [hstream]
            rcases hcond with hc | hc
            · left
              simp only [List.length_append]
              omega
            · right
              rw [List.take_append]
              simp only [List.length_append, List.length_take] at hc ⊢
              omega
          · intro x hx
            rcases List.mem_append.mp hx with hx | hx
            · rcases List.mem_append.mp hx with hx | hx
              · simp only [List.mem_singleton] at hx
                subst hx
                exact hlir
              · rw [List.eq_of_mem_replicate hx]
                exact hrir
            · exact hmem x hx

/-- A pair with a nonempty tokenization and a label outside the map, placed
after a prefix of pairs whose subwords fit in the budget, makes the loop
reach an unguarded lookup and fail. -/
theorem alignLoop_error_of_bad_label (tk : Tokenizer) (m : Nat) :
    ∀ (pre : List (String × String)) (word label : String)
      (post : List (String × String)) (acc labs : List Nat),
      tk.tokenize word ≠ [] → label_to_int label = none →
      acc.length + (rawSubwordStream tk pre).length ≤ m - 2 →
      ∃ msg, alignLoop tk m (pre ++ (word, label) :: post) acc labs = .error msg := by
  intro pre
  induction pre with
  | nil =>
    intro word label post acc labs hw hl _
    obtain ⟨t, ts, hts⟩ : ∃ t ts, tk.tokenize word = t :: ts := by
      cases h : tk.tokenize word with
      | nil => exact absurd h hw
      | cons t ts => exact ⟨t, ts, rfl⟩
    refine ⟨"KeyError: " ++ label, ?_⟩
    simp only [List.nil_append, alignLoop, hts]
    simp [hl]
  | cons q pre ih =>
    obtain ⟨w2, l2⟩ := q
    intro word label post acc labs hw hl hfit
    have hstream : rawSubwordStream tk ((w2, l2) :: pre) =
        tk.tokenize w2 ++ rawSubwordStream tk pre := rfl
    rw [hstream] at hfit
    by_cases h0 : tk.tokenize w2 = []
    · obtain ⟨msg, hmsg⟩ := ih word label post acc labs hw hl (by simpa [h0] using hfit)
      refine ⟨msg, ?_⟩
      rw [show alignLoop tk m (((w2, l2) :: pre) ++ (word, label) :: post) acc labs =
          alignLoop tk m (pre ++ (word, label) :: post) acc labs by
        simp [alignLoop, h0]]
      exact hmsg
    · cases hl2 : label_to_int l2 with
      | none =>
        obtain ⟨t, ts, hts⟩ : ∃ t ts, tk.tokenize w2 = t :: ts := by
          cases h : tk.tokenize w2 with
          | nil => exact absurd h h0
          | cons t ts => exact ⟨t, ts, rfl⟩
        refine ⟨"KeyError: " ++ l2, ?_⟩
        simp only [List.cons_append, alignLoop, hts]
        simp [hl2]
      | some li2 =>
        obtain ⟨t, ts, hts⟩ : ∃ t ts, tk.tokenize w2 = t :: ts := by
          cases h : tk.tokenize w2 with
          | nil => exact absurd h h0
          | cons t ts => exact ⟨t, ts, rfl⟩
        have hfit2 : (acc ++ tk.tokenize w2).length + (rawSubwordStream tk pre).length ≤ m - 2 := by
          simp only [List.length_append] at hfit ⊢
          omega
        have hnb : ¬ (m - 2 < (acc ++ tk.tokenize w2).length) := by
          simp only [List.length_append] at hfit2 ⊢
          omega
        cases ts with
        | nil =>
          obtain ⟨msg, hmsg⟩ := ih word label post (acc ++ tk.tokenize w2)
            (labs ++ [li2]) hw hl hfit2
          refine ⟨msg, ?_⟩
          rw [show alignLoop tk m (((w2, l2) :: pre) ++ (word, label) :: post) acc labs =
              alignLoop tk m (pre ++ (word, label) :: post) (acc ++ tk.tokenize w2)
                (labs ++ [li2]) by
            simp only [List.cons_append, alignLoop, hts]
            simp only [hl2]
            simp only [hts] at hnb
            simp only [List.length_append, List.length_cons, List.length_nil] at hnb
            simp [hnb]]
          exact hmsg
        | cons t2 ts2 =>
          obtain ⟨ri2, hri2⟩ := contLabelOf_some_of_some l2 li2 hl2
          obtain ⟨msg, hmsg⟩ := ih word label post (acc ++ tk.tokenize w2)
            ((labs ++ [li2]) ++ List.replicate ((tk.tokenize w2).length - 1) ri2) hw hl hfit2
          refine ⟨msg, ?_⟩
          rw [show alignLoop tk m (((w2, l2) :: pre) ++ (word, label) :: post) acc labs =
              alignLoop tk m (pre ++ (word, label) :: post) (acc ++ tk.tokenize w2)
                ((labs ++ [li2]) ++ List.replicate ((tk.tokenize w2).length - 1) ri2) by
            simp only [List.cons_append, alignLoop, hts]
            simp only [hl2]
            simp only [hts] at hnb
            simp only [List.length_append, List.length_cons] at hnb
            have hc : ¬ (m - 2 < acc.length + (ts2.length + 1 + 1)) := by omega
            have h1 : (1 : Nat) < ts2.length + 1 + 1 := by omega
            simp only [List.length_append, List.length_cons, hc, if_false, h1, if_true]
            rw [show (if l2 = "B" then "I" else l2) = contLabelOf l2 from rfl]
            simp only [hri2]
            simp [hts]]
          exact hmsg

/-- Membership shape of a finalized label sequence: markers and padding are
the ignore value, the content labels come from the given list. -/
theorem labels_mem_of_out (out2 : List Nat) (pad : Nat)
    (hsub : ∀ x ∈ out2, x = 0 ∨ x = 1 ∨ x = 2) :
    ∀ x ∈ (([(-100 : Int)] ++ out2.map Int.ofNat ++ [-100]) ++
        List.replicate pad (-100) : List Int),
      x = -100 ∨ x = 0 ∨ x = 1 ∨ x = 2 := by
  intro x hx
  simp only [List.mem_append, List.mem_map, List.mem_replicate,
    List.mem_singleton] at hx
  rcases hx with ((hx | ⟨a, ha, rfl⟩) | hx) | ⟨_, hx⟩
  · exact Or.inl hx
  · rcases hsub a ha with h | h | h <;> subst h <;> simp
  · exact Or.inl hx
  · exact Or.inl hx

/-- A record with equal counts and only valid labels aligns without error and
every entry of its label sequence is the ignore value or a real label id. -/
theorem alignSentence_ok_of_valid (tk : Tokenizer) (m : Nat)
    (label_list words : List String)
    (hlen : label_list.length = words.length)
    (hvalid : ∀ l ∈ label_list, l ∈ (["B", "I", "O"] : List String)) :
    ∃ ex, alignSentence tk m label_list words = .ok ex ∧
      ∀ x ∈ ex.labels, x = -100 ∨ x = 0 ∨ x = 1 ∨ x = 2 := by
  obtain ⟨n, out, heq, _, hmem⟩ := alignLoop_ok_of_valid tk m (words.zip label_list) [] []
    (fun p hp => hvalid p.2 (List.of_mem_zip hp).2)
  unfold alignSentence
  rw [if_neg (by simp [hlen])]
  rw [heq]
  simp only [List.nil_append]
  by_cases htr : m - 2 < (List.take n (rawSubwordStream tk (words.zip label_list))).length
  · rw [if_pos htr]
    refine ⟨_, rfl, ?_⟩
    exact labels_mem_of_out _ _ (fun x hx => hmem x (List.take_subset _ _ hx))
  · rw [if_neg htr]
    refine ⟨_, rfl, ?_⟩
    exact labels_mem_of_out _ _ hmem

/-- The diagonal of a confusion matrix never exceeds its total count. -/
theorem correctPredictions_le_totalSamples (c : ConfusionMatrix) :
    correctPredictions c ≤ totalSamples c := by
  unfold correctPredictions totalSamples
  exact Finset.sum_le_sum fun i _ =>
    Finset.single_le_sum (fun j _ => Nat.zero_le _) (Finset.mem_univ i)

/-- A worker report carries a checkpoint exactly when the worker has rank 0
and the epoch matches the checkpoint cadence. -/
theorem epochEndReport_checkpoint_isSome (world_rank epoch checkpoint_freq : Nat)
    (avg_loss : LossValue) (ta va : ℚ) :
    (epochEndReport world_rank epoch checkpoint_freq avg_loss ta va).checkpoint.isSome =
      decide (world_rank = 0 ∧ epoch % checkpoint_freq = 0) := by
  unfold epochEndReport
  split <;> simp_all

/-! Claim theorems. -/

/-- C1: the claim states that for every valid record all three output
sequences have length exactly max_length, including under truncation. The
code violates this: with the source value max_length = 512 and a single word
tokenizing into 515 subwords under label B, the early break fires after
appending all 515 ids but only the first label, so the produced example has
input_ids and attention_mask of length 512 but label_ids of length 3 (begin
marker, one content label, end marker), and no padding is added because the
padding amount is computed from input_ids alone. -/
theorem c1_label_ids_fall_short_of_max_length :
    ((alignSentence wideTok 512 ["B"] ["w"]).map fun ex =>
      (ex.input_ids.length, ex.attention_mask.length, ex.labels.length)) =
      .ok (512, 512, 3) := by
  set_option maxRecDepth 8192 in rfl

/-- C2 counterexample: a word with 10 subwords (more than one) and original
label B whose arrival makes the running id count exceed max_length - 2
receives exactly one emitted label, not the ten labels B, I, ..., I the claim
promises for every multi-subword word. -/
theorem c2_break_word_counterexample :
    alignLoop truncTok 8 [("w", "B")] [] [] =
      .ok ([1, 2, 3, 4, 5, 6, 7, 8, 9, 10], [0]) ∧
    (1 : Nat) < (truncTok.tokenize "w").length ∧
    ([0] : List Nat) ≠ 0 :: List.replicate ((truncTok.tokenize "w").length - 1) 1 := by
  refine ⟨rfl, by decide, by decide⟩

/-- C2 as amended: when the record's raw subword count fits within
max_length - 2 (so the early length break never fires), the loop emits, for
each word in order, exactly the per-word emission: for k subwords the
original label id followed by k - 1 continuation ids, where the continuation
of B is I and the continuation of I or O is itself; so a multi-subword B word
gets B, I, ..., I and a multi-subword I or O word gets k copies of its label,
and the first subword always inherits the original label. -/
theorem c2_continuation_rule (tk : Tokenizer) (m : Nat) (words label_list : List String)
    (hvalid : ∀ l ∈ label_list, l ∈ (["B", "I", "O"] : List String))
    (hfit : (rawSubwordStream tk (words.zip label_list)).length ≤ m - 2) :
    alignLoop tk m (words.zip label_list) [] [] =
      .ok (rawSubwordStream tk (words.zip label_list),
           expectedLabels tk (words.zip label_list)) ∧
    (∀ k, 1 < k →
      wordEmission "B" k = 0 :: List.replicate (k - 1) 1 ∧
      wordEmission "I" k = List.replicate k 1 ∧
      wordEmission "O" k = List.replicate k 2) ∧
    (∀ label k, (wordEmission label (k + 1)).head? =
      some ((label_to_int label).getD 0)) := by
  refine ⟨?_, ?_, ?_⟩
  · have h := alignLoop_eq_of_fits tk m (words.zip label_list) [] []
      (fun p hp => hvalid p.2 (List.of_mem_zip hp).2) (by simpa using hfit)
    simpa using h
  · intro k hk
    obtain ⟨j, rfl⟩ : ∃ j, k = j + 1 := ⟨k - 1, by omega⟩
    refine ⟨?_, ?_, ?_⟩ <;>
      simp [wordEmission, contLabelOf, label_to_int, List.replicate_succ]
  · intro label k
    simp [wordEmission]

/-- C2 witness: end-to-end scenario 1 of the spec, cats with two subwords
under B and run with one subword under O, aligned to label ids 0, 1, 2. -/
theorem c2_continuation_rule_witness :
    alignLoop scenarioTok 512 (["cats", "run"].zip ["B", "O"]) [] [] =
      .ok ([11, 12, 13], [0, 1, 2]) := by
  have h := (c2_continuation_rule scenarioTok 512 ["cats", "run"] ["B", "O"]
    (by decide) (by decide)).1
  simpa [rawSubwordStream, expectedLabels, wordEmission, contLabelOf,
    label_to_int, scenarioTok] using h

/-- C3 counterexample: the record with 3 words and 2 labels sits at record
index 0 of its batch, the raised error message is exactly the count report
Mismatch 2 labels but 3 words, and the digit 0 (the record index) does not
occur anywhere in that message, so the error does not reference the record
index. -/
theorem c3_message_lacks_index_counterexample :
    lemmatize_tokenize_and_align_labels zeroTok 512 [(["B", "O"], ["a", "b", "c"])] =
      .error "Mismatch: 2 labels but 3 words" ∧
    ("Mismatch: 2 labels but 3 words").data.contains (Char.ofNat 48) = false := by
  exact ⟨rfl, by decide⟩

/-- C3 as amended: a record whose label count differs from its word count
makes the aligner fail with an error whose message reports the label count
and the word count, and nothing else; the record index is not part of the
message. -/
theorem c3_mismatch_error_message (tk : Tokenizer) (m : Nat)
    (label_list words : List String)
    (h : label_list.length ≠ words.length) :
    alignSentence tk m label_list words =
      .error ("Mismatch: " ++ toString label_list.length ++ " labels but " ++
        toString words.length ++ " words") := by
  unfold alignSentence
  rw [if_pos h]

/-- C3 witness: the 3-word, 2-label record of scenario 2 fails with the
count-only message. -/
theorem c3_mismatch_error_message_witness :
    alignSentence zeroTok 512 ["B", "O"] ["a", "b", "c"] =
      .error ("Mismatch: " ++ toString (2 : Nat) ++ " labels but " ++
        toString (3 : Nat) ++ " words") :=
  c3_mismatch_error_message zeroTok 512 ["B", "O"] ["a", "b", "c"] (by decide)

/-- C4: when the raw subword count of a valid record exceeds max_length - 2,
the token content between the begin and end markers is exactly the first
max_length - 2 ids of the raw subword stream, of length exactly
max_length - 2 and never more; being a prefix of the stream, it retains the
already appended subwords of the word in progress when the limit was hit,
with no rollback. -/
theorem c4_truncation_exact (tk : Tokenizer) (m : Nat) (label_list words : List String)
    (hlen : label_list.length = words.length)
    (hvalid : ∀ l ∈ label_list, l ∈ (["B", "I", "O"] : List String))
    (hover : m - 2 < (rawSubwordStream tk (words.zip label_list)).length) :
    ((alignSentence tk m label_list words).map fun ex => ex.input_ids) =
      .ok ([tk.cls_token_id] ++
        (rawSubwordStream tk (words.zip label_list)).take (m - 2) ++ [tk.sep_token_id]) ∧
    ((rawSubwordStream tk (words.zip label_list)).take (m - 2)).length = m - 2 := by
  have hvalid2 : ∀ p ∈ words.zip label_list, p.2 ∈ (["B", "I", "O"] : List String) :=
    fun p hp => hvalid p.2 (List.of_mem_zip hp).2
  obtain ⟨n, out, heq, hcond, _⟩ := alignLoop_ok_of_valid tk m (words.zip label_list) [] [] hvalid2
  set S := rawSubwordStream tk (words.zip label_list) with hS
  have htklen : (S.take n).length = min n S.length := List.length_take n S
  have hlt : m - 2 < (S.take n).length := by
    rcases hcond with hc | hc
    · rw [List.take_of_length_le hc]
      exact hover
    · simpa using hc
  have hmn : m - 2 < n := by omega
  have htake : (S.take n).take (m - 2) = S.take (m - 2) := by
    rw [List.take_take, min_eq_left (le_of_lt hmn)]
  have htakelen : (S.take (m - 2)).length = m - 2 := by
    rw [List.length_take]
    omega
  refine ⟨?_, htakelen⟩
  rw [show alignSentence tk m label_list words =
      .ok { input_ids := [tk.cls_token_id] ++ S.take (m - 2) ++ [tk.sep_token_id] ++
              List.replicate (m - ([tk.cls_token_id] ++ S.take (m - 2) ++ [tk.sep_token_id]).length) tk.pad_token_id,
            attention_mask := List.replicate ([tk.cls_token_id] ++ S.take (m - 2) ++ [tk.sep_token_id]).length 1 ++
              List.replicate (m - ([tk.cls_token_id] ++ S.take (m - 2) ++ [tk.sep_token_id]).length) 0,
            labels := [-100] ++ (out.take (m - 2)).map Int.ofNat ++ [-100] ++
              List.replicate (m - ([tk.cls_token_id] ++ S.take (m - 2) ++ [tk.sep_token_id]).length) (-100) } by
    unfold alignSentence
    rw [if_neg (by simp [hlen])]
    rw [heq]
    simp only [List.nil_append]
    rw [if_pos hlt]
    rw [htake]]
  have hpad : m - ([tk.cls_token_id] ++ S.take (m - 2) ++ [tk.sep_token_id]).length = 0 := by
    simp only [List.length_append, List.length_cons, List.length_nil, htakelen]
    omega
  rw [hpad]
  simp [Except.map]

/-- C4 witness: a single word with ten subwords under max_length 8 keeps
exactly the first six subwords between the markers. -/
theorem c4_truncation_exact_witness :
    ((alignSentence truncTok 8 ["B"] ["w"]).map fun ex => ex.input_ids) =
      .ok ([truncTok.cls_token_id] ++
        (rawSubwordStream truncTok (["w"].zip ["B"])).take (8 - 2) ++
        [truncTok.sep_token_id]) ∧
    ((rawSubwordStream truncTok (["w"].zip ["B"])).take (8 - 2)).length = 8 - 2 :=
  c4_truncation_exact truncTok 8 ["B"] ["w"] rfl (by decide) (by decide)

/-- C5: the derived accuracy equals the diagonal sum divided by the total
count whenever the total is positive, is 0 rather than an error on a total of
0, always lies in the unit interval, and equals 35 / 40 on the scenario
matrix with diagonal 10, 5, 20 and total 40. -/
theorem c5_accuracy_properties :
    (∀ c : ConfusionMatrix, 0 < totalSamples c →
      accuracy c = (correctPredictions c : ℚ) / (totalSamples c : ℚ)) ∧
    (∀ c : ConfusionMatrix, totalSamples c = 0 → accuracy c = 0) ∧
    (∀ c : ConfusionMatrix, 0 ≤ accuracy c ∧ accuracy c ≤ 1) ∧
    accuracy exampleConfusion = 35 / 40 := by
  refine ⟨fun c h => if_pos h, fun c h => by simp [accuracy, h], fun c => ⟨?_, ?_⟩, ?_⟩
  · unfold accuracy
    split
    · positivity
    · exact le_refl 0
  · unfold accuracy
    split
    · rename_i h
      rw [div_le_one (by exact_mod_cast h)]
      exact_mod_cast correctPredictions_le_totalSamples c
    · norm_num
  · have h1 : totalSamples exampleConfusion = 40 := by decide
    have h2 : correctPredictions exampleConfusion = 35 := by decide
    unfold accuracy
    rw [h1, h2]
    norm_num

/-- C5 witness: the scenario matrix has positive total, and its accuracy is
the diagonal sum over the total. -/
theorem c5_accuracy_properties_witness :
    accuracy exampleConfusion =
      (correctPredictions exampleConfusion : ℚ) / (totalSamples exampleConfusion : ℚ) :=
  c5_accuracy_properties.1 exampleConfusion (by decide)

/-- C6: for every class, precision is TP over TP + FP and 0 when that
denominator is 0, recall is TP over TP + FN and 0 when that denominator is 0,
and F1 is the harmonic mean of precision and recall and 0 when their sum is
0; all three are total functions, never an error or a division by zero. -/
theorem c6_class_metric_formulas (c : ConfusionMatrix) (i : Fin 3) :
    (0 < true_positives c i + false_positives c i →
      precision c i = (true_positives c i : ℚ) /
        ((true_positives c i + false_positives c i : Nat) : ℚ)) ∧
    (true_positives c i + false_positives c i = 0 → precision c i = 0) ∧
    (0 < true_positives c i + false_negatives c i →
      recallScore c i = (true_positives c i : ℚ) /
        ((true_positives c i + false_negatives c i : Nat) : ℚ)) ∧
    (true_positives c i + false_negatives c i = 0 → recallScore c i = 0) ∧
    (0 < precision c i + recallScore c i →
      f1 c i = 2 * precision c i * recallScore c i / (precision c i + recallScore c i)) ∧
    (precision c i + recallScore c i = 0 → f1 c i = 0) := by
  refine ⟨fun h => if_pos h, fun h => by simp [precision, h], fun h => if_pos h,
    fun h => by simp [recallScore, h], fun h => if_pos h, fun h => by simp [f1, h]⟩

/-- C6 witness: class 0 of the scenario matrix has a positive precision
denominator and the stated quotient. -/
theorem c6_class_metric_formulas_witness :
    precision exampleConfusion 0 = (true_positives exampleConfusion 0 : ℚ) /
      ((true_positives exampleConfusion 0 + false_positives exampleConfusion 0 : Nat) : ℚ) :=
  (c6_class_metric_formulas exampleConfusion 0).1 (by decide)

/-- C7: a report carries a checkpoint exactly when the worker has world rank
0 and the epoch matches the cadence; any worker failing either condition
reports only its loss with no accuracies and no checkpoint; and over any list
of distinct worker ranks, at most one worker of an epoch creates a
checkpoint. -/
theorem c7_checkpoint_invariant :
    (∀ (world_rank epoch checkpoint_freq : Nat) (avg_loss : LossValue) (ta va : ℚ),
      ((epochEndReport world_rank epoch checkpoint_freq avg_loss ta va).checkpoint.isSome = true ↔
        world_rank = 0 ∧ epoch % checkpoint_freq = 0)) ∧
    (∀ (world_rank epoch checkpoint_freq : Nat) (avg_loss : LossValue) (ta va : ℚ),
      ¬(world_rank = 0 ∧ epoch % checkpoint_freq = 0) →
      epochEndReport world_rank epoch checkpoint_freq avg_loss ta va =
        { loss := avg_loss, val_accuracy := none,
          train_accuracy := none, checkpoint := none }) ∧
    (∀ (ranks : List Nat) (epoch checkpoint_freq : Nat) (avg_loss : LossValue) (ta va : ℚ),
      ranks.Nodup →
      (ranks.filter fun r =>
        (epochEndReport r epoch checkpoint_freq avg_loss ta va).checkpoint.isSome).length ≤ 1) := by
  refine ⟨?_, ?_, ?_⟩
  · intro world_rank epoch checkpoint_freq avg_loss ta va
    rw [epochEndReport_checkpoint_isSome]
    simp
  · intro world_rank epoch checkpoint_freq avg_loss ta va h
    unfold epochEndReport
    rw [if_neg h]
  · intro ranks epoch checkpoint_freq avg_loss ta va hnd
    by_cases hc : epoch % checkpoint_freq = 0
    · have hfe : (ranks.filter fun r =>
          (epochEndReport r epoch checkpoint_freq avg_loss ta va).checkpoint.isSome) =
          ranks.filter fun r => r == 0 := by
        apply List.filter_congr
        intro r _
        rw [epochEndReport_checkpoint_isSome]
        simp only [hc, and_true]
        cases h : (r == 0) with
        | true => simp_all
        | false => simp_all
      rw [hfe, ← List.countP_eq_length_filter]
      have := List.nodup_iff_count_le_one.mp hnd 0
      simpa [List.count] using this
    · have hfe : (ranks.filter fun r =>
          (epochEndReport r epoch checkpoint_freq avg_loss ta va).checkpoint.isSome) = [] := by
        rw [List.filter_eq_nil_iff]
        intro r _
        rw [epochEndReport_checkpoint_isSome]
        simp [hc]
      rw [hfe]
      simp

/-- C7 witness: among the distinct ranks 0, 1, 2 at epoch 4 with cadence 2,
at most one worker creates a checkpoint. -/
theorem c7_checkpoint_invariant_witness :
    (([0, 1, 2] : List Nat).filter fun r =>
      (epochEndReport r 4 2 okLoss (1/2) (1/2)).checkpoint.isSome).length ≤ 1 :=
  c7_checkpoint_invariant.2.2 [0, 1, 2] 4 2 okLoss (1/2) (1/2) (by decide)

/-- C8: the claim states that inside the training loop the base encoder is
frozen and only the head is trainable. The code violates this: the loop loads
a fresh model whose parameters all have requires_grad true and applies no
freezing, so with for instance two encoder parameters and one head parameter
the optimizer receives all three parameters, the encoder ones included; the
freezing of the standalone notebook cell, applied to the separately loaded
evaluation model, would have left only the single head parameter
trainable. -/
theorem c8_base_encoder_trainable_in_loop :
    (train_loop_model 2 1).distilbert = [true, true] ∧
    optimizer_parameter_list (train_loop_model 2 1) = [true, true, true] ∧
    optimizer_parameter_list (freeze_cell (from_pretrained 2 1)) = [true] := by
  decide

/-- C9 counterexample: a worker run whose second epoch has a non-finite batch
loss completes without error and reports that non-finite loss like any other,
and best-result selection by maximal val_accuracy still returns the trial
whose loss was non-finite at epoch 2, even against a trial with finite losses
throughout. -/
theorem c9_nonfinite_trial_selected_counterexample :
    ((train_loop_per_worker 0 1 (some []) (some [])
        [[okLoss], [nanLoss]] (9/10) (9/10)).map fun rs =>
          rs.map fun r => r.loss.finiteVal) = .ok [true, false] ∧
    get_best_result [trialA, trialB] = some trialB ∧
    trialB.reports.map (fun r => r.loss.finiteVal) = [true, false] ∧
    trialA.val_accuracy < trialB.val_accuracy := by
  refine ⟨rfl, ?_, rfl, by norm_num [trialA, trialB]⟩
  norm_num [get_best_result, trialA, trialB]

/-- C9 as amended: the training loop contains no finiteness check at all:
with both dataset shards present it succeeds for every choice of per-batch
losses, finite or not, and trial selection picks the trial with the larger
val_accuracy regardless of the losses either trial reported. -/
theorem c9_no_finiteness_check :
    (∀ (world_rank checkpoint_freq : Nat) (ts vs : List AlignedExample)
        (losses : List (List LossValue)) (ta va : ℚ),
      (train_loop_per_worker world_rank checkpoint_freq (some ts) (some vs)
        losses ta va).isOk = true) ∧
    (∀ a b : TrialResult, a.val_accuracy < b.val_accuracy →
      get_best_result [a, b] = some b) := by
  constructor
  · intro world_rank checkpoint_freq ts vs losses ta va
    simp [train_loop_per_worker, Except.isOk, Except.toBool]
  · intro a b h
    simp [get_best_result, h]

/-- C9 witness: the trial with non-finite loss but higher val_accuracy is
selected. -/
theorem c9_no_finiteness_check_witness :
    get_best_result [trialA, trialB] = some trialB :=
  c9_no_finiteness_check.2 trialA trialB (by norm_num [trialA, trialB])

/-- C10 counterexample: a record with equal counts whose only label X lies
outside B, I, O aligns successfully when its word tokenizes to zero subwords,
because the pair is skipped before the dictionary lookup; so the claim that
every such record fails is false. -/
theorem c10_skipped_bad_label_counterexample :
    (alignSentence zeroTok 512 ["X"] ["a"]).isOk = true ∧
    "X" ∉ (["B", "I", "O"] : List String) ∧
    (["X"] : List String).length = (["a"] : List String).length := by
  refine ⟨rfl, by decide, rfl⟩

/-- C10 as amended: the per-pair label lookup is partial. A record with equal
counts fails with an unguarded lookup error whenever some pair with a label
outside B, I, O has a word tokenizing to at least one subword and is reached
before the early length break, which holds in particular when the subwords of
the pairs before it fit in the budget; a pair whose word tokenizes to zero
subwords is skipped before the lookup. Under the precondition that every
label is in B, I, O, the error branch is unreachable: alignment succeeds and
every emitted label id is 0, 1 or 2, apart from the ignore value -100 at the
marker and padding positions. -/
theorem c10_partial_label_lookup :
    (∀ (tk : Tokenizer) (m : Nat) (label_list words : List String)
        (pre post : List (String × String)) (word label : String),
      label_list.length = words.length →
      words.zip label_list = pre ++ (word, label) :: post →
      tk.tokenize word ≠ [] →
      label ∉ (["B", "I", "O"] : List String) →
      (rawSubwordStream tk pre).length ≤ m - 2 →
      ∃ msg, alignSentence tk m label_list words = .error msg) ∧
    (∀ (tk : Tokenizer) (m : Nat) (label_list words : List String),
      label_list.length = words.length →
      (∀ l ∈ label_list, l ∈ (["B", "I", "O"] : List String)) →
      ∃ ex, alignSentence tk m label_list words = .ok ex ∧
        ∀ x ∈ ex.labels, x = -100 ∨ x = 0 ∨ x = 1 ∨ x = 2) := by
  constructor
  · intro tk m label_list words pre post word label hlen hsplit hw hbad hfit
    obtain ⟨msg, hmsg⟩ := alignLoop_error_of_bad_label tk m pre word label post [] []
      hw (label_to_int_eq_none label hbad) (by simpa using hfit)
    refine ⟨msg, ?_⟩
    unfold alignSentence
    rw [if_neg (by simp [hlen])]
    rw [hsplit, hmsg]
  · exact alignSentence_ok_of_valid

/-- C10 witness: the bad label X on a word with one subword makes the aligner
fail. -/
theorem c10_partial_label_lookup_witness :
    (alignSentence oneTok 512 ["X"] ["a"]).isOk = false := by
  obtain ⟨msg, hmsg⟩ := c10_partial_label_lookup.1 oneTok 512 ["X"] ["a"] [] [] "a" "X"
    rfl rfl (by decide) (by decide) (by decide)
  rw [hmsg]
  rfl

end BioNER
